import Mathlib

/-!
Verification development for the conversation-viewer transcript parser
(`src/transformer.ts`, class `ConversationParser`).

The parser is shallowly embedded over `List Char`: each JavaScript string
operation and regular expression used by the source is translated into an
executable Lean function, and `parse` mirrors the single forward scan of
`ConversationParser.parse` together with `extractTitle`, `extractMetadata`
and `calculateStatistics`.
-/

namespace ConvViewer

/-- Kinds of conversation messages (`ConversationMessage.type` in the source). -/
inductive MType where
  | user | assistant | system | tool | thinking | git
  deriving DecidableEq, Repr

/-- Kinds of file changes (`FileChange.type` in the source). -/
inductive FCType where
  | read | update | create | search
  deriving DecidableEq, Repr

/-- `ConversationMessage` from the source; optional fields become `Option`. -/
structure Message where
  type : MType
  content : List Char
  toolName : Option (List Char) := none
  fileName : Option (List Char) := none
  isGitAction : Option Bool := none
  deriving DecidableEq, Repr

/-- `CodeBlock` from the source. -/
structure CodeBlock where
  language : List Char
  code : List Char
  fileName : Option (List Char) := none
  deriving DecidableEq, Repr

/-- `FileChange` from the source. -/
structure FileChange where
  fileName : List Char
  type : FCType
  details : List Char
  lineNumbers : Option (List Char) := none
  deriving DecidableEq, Repr

/-- `ConversationSection` from the source. -/
structure Section where
  title : List Char
  messages : List Message
  codeBlocks : List CodeBlock
  fileChanges : List FileChange
  summary : Option (List Char) := none
  deriving DecidableEq, Repr

/-- The `statistics` record of `ParsedConversation`. -/
structure Stats where
  totalMessages : Nat
  userMessages : Nat
  assistantMessages : Nat
  thinkingMessages : Nat
  toolMessages : Nat
  gitMessages : Nat
  filesModified : Nat
  codeBlocksCount : Nat
  emojiCounts : List (Char × Nat)
  deriving DecidableEq, Repr

/-- `ParsedConversation` from the source. -/
structure ParsedConversation where
  title : List Char
  date : List Char
  model : List Char
  projectPath : List Char
  sections : List Section
  statistics : Stats
  deriving DecidableEq, Repr

/-! ## String helpers (JavaScript semantics over `List Char`) -/

/-- JavaScript `String.prototype.trim` (ASCII whitespace suffices here). -/
def trim (l : List Char) : List Char :=
  ((l.dropWhile Char.isWhitespace).reverse.dropWhile Char.isWhitespace).reverse

/-- JavaScript `content.split('\n')`. -/
def splitNL : List Char → List (List Char)
  | [] => [[]]
  | c :: cs =>
    if c = '\n' then [] :: splitNL cs
    else
      match splitNL cs with
      | [] => [[c]]
      | l :: ls => (c :: l) :: ls

/-- Contiguous-substring test, JavaScript `String.prototype.includes`. -/
def containsSub (p : List Char) : List Char → Bool
  | [] => p.isEmpty
  | c :: cs => p.isPrefixOf (c :: cs) || containsSub p cs

/-- A JavaScript `\w` word character: `[A-Za-z0-9_]`. -/
def isWordChar (c : Char) : Bool :=
  c.isAlpha || c.isDigit || c = '_'

/-- Case-insensitive prefix test (for the `/i` regex flags in the source). -/
def ciPrefix : List Char → List Char → Bool
  | [], _ => true
  | _ :: _, [] => false
  | a :: ps, b :: ls => (a.toLower = b.toLower) && ciPrefix ps ls

/-! ## Line Normalizer (`ConversationParser` constructor)

The constructor maps every line through
`line.match(/^\s*\d+→(.*)$/)`, replacing a matching line by the capture. -/

/-- Does a line match the `^\s*\d+→` prefix shape? The first component
is the digit run after the leading whitespace (which must be non-empty),
the second is what follows it (which must start with the arrow). -/
def numArrowShape (l : List Char) : Bool :=
  match (l.dropWhile Char.isWhitespace).takeWhile Char.isDigit,
        (l.dropWhile Char.isWhitespace).dropWhile Char.isDigit with
  | [], _ => false
  | _ :: _, c :: _ => c = '→'
  | _ :: _, [] => false

/-- One application of the Line Normalizer to a single line:
strip the optional `whitespace digits →` prefix (the regex
`/^\s*\d+→(.*)$/`), else pass the line through unchanged. -/
def normLine (l : List Char) : List Char :=
  match (l.dropWhile Char.isWhitespace).takeWhile Char.isDigit,
        (l.dropWhile Char.isWhitespace).dropWhile Char.isDigit with
  | [], _ => l
  | _ :: _, c :: r => if c = '→' then r else l
  | _ :: _, [] => l

/-! ## Regex models for the classification rules -/

/-- The closed set of tool names in `toolPattern` (source line 121). -/
def toolNames : List (List Char) :=
  ["Read".data, "Write".data, "Edit".data, "Bash".data, "Grep".data, "Glob".data,
   "Search".data, "Update".data, "TodoWrite".data, "MultiEdit".data, "Task".data,
   "WebFetch".data, "WebSearch".data, "NotebookEdit".data, "AskUserQuestion".data,
   "ExitPlanMode".data, "EnterPlanMode".data, "KillShell".data, "TaskOutput".data,
   "Skill".data, "SlashCommand".data]

/-- Does `● Name(` (for a recognized tool name) start at this position? -/
def hasToolAt (l : List Char) : Bool :=
  toolNames.any (fun n => (('●' :: ' ' :: n) ++ ['(']).isPrefixOf l)

/-- `toolPattern.test(line)`: the unanchored regex
`/● (Read|Write|...)\(/` matches somewhere in the line. -/
def toolPatternTest : List Char → Bool
  | [] => false
  | c :: cs => hasToolAt (c :: cs) || toolPatternTest cs

/-- A match of `/● (\w+)\(([^)]*)\)?/` anchored at the head of `l`:
returns the tool-name and argument captures. -/
def toolMatchAt (l : List Char) : Option (List Char × List Char) :=
  match l with
  | '●' :: ' ' :: rest =>
    let w := rest.takeWhile isWordChar
    if w = [] then none
    else
      match rest.dropWhile isWordChar with
      | '(' :: r => some (w, r.takeWhile (fun c => c ≠ ')'))
      | _ => none
  | _ => none

/-- `line.match(/● (\w+)\(([^)]*)\)?/)` — leftmost match. -/
def toolMatch : List Char → Option (List Char × List Char)
  | [] => none
  | c :: cs =>
    match toolMatchAt (c :: cs) with
    | some m => some m
    | none => toolMatch cs

/-- `/\bgit\b/.test(arg)`: the word `git` occurs with word boundaries;
`prev` carries the character preceding the current position. -/
def gitScan (prev : Option Char) : List Char → Bool
  | 'g' :: 'i' :: 't' :: rest =>
    ((match prev with
      | none => true
      | some p => !isWordChar p) &&
     (match rest with
      | [] => true
      | c :: _ => !isWordChar c))
    || gitScan (some 'g') ('i' :: 't' :: rest)
  | c :: cs => gitScan (some c) cs
  | [] => false

/-- `/\bgit\b/.test(arg)` from the start of the argument. -/
def gitWordTest (arg : List Char) : Bool :=
  gitScan none arg

/-- The thinking-marker test (source line 175):
`/^\s*<thinking>/`, `/^\s*\[thinking\]/i`, or `/^thinking:/i`. -/
def isThinkingLine (l : List Char) : Bool :=
  "<thinking>".data.isPrefixOf (l.dropWhile Char.isWhitespace) ||
  ciPrefix "[thinking]".data (l.dropWhile Char.isWhitespace) ||
  ciPrefix "thinking:".data l

/-! ## `extractTitle` -/

mutual

/-- Word accumulation for `text.split(/\s+/)`: building the current piece. -/
def splitWsAux : List Char → List Char → List (List Char)
  | [], acc => [acc.reverse]
  | c :: cs, acc =>
    if c.isWhitespace then acc.reverse :: splitWsSkip cs
    else splitWsAux cs (c :: acc)

/-- Word accumulation for `text.split(/\s+/)`: inside a whitespace run. -/
def splitWsSkip : List Char → List (List Char)
  | [] => [[]]
  | c :: cs =>
    if c.isWhitespace then splitWsSkip cs
    else splitWsAux cs [c]
end

/-- JavaScript `text.split(/\s+/)` (keeps empty edge pieces). -/
def jsSplitWs (l : List Char) : List (List Char) :=
  splitWsAux l []

/-- `ConversationParser.extractTitle`: first six whitespace-separated
tokens, truncated to 47 chars plus `...` when over 50, defaulting to
`Conversation` when empty. -/
def extractTitle (text : List Char) : List Char :=
  let words := (jsSplitWs text).take 6
  let title := List.intercalate [' '] words
  let title := if title.length > 50 then title.take 47 ++ "...".data else title
  if title = [] then "Conversation".data else title

/-! ## Metadata (`extractMetadata`) -/

/-- The `\d{4}-\d{2}-\d{2}` token shape on a 10-character candidate. -/
def dateShape (s : List Char) : Bool :=
  match s with
  | [a, b, c, d, e, f, g, h, i, j] =>
    a.isDigit && b.isDigit && c.isDigit && d.isDigit && e = '-' &&
    f.isDigit && g.isDigit && h = '-' && i.isDigit && j.isDigit
  | _ => false

/-- Does `\d{4}-\d{2}-\d{2}` match at the head of `l`? Returns the match. -/
def dateAt (l : List Char) : Option (List Char) :=
  if dateShape (l.take 10) then some (l.take 10) else none

/-- `content.match(/(\d{4}-\d{2}-\d{2})/)` — leftmost match over the raw text. -/
def findDate : List Char → Option (List Char)
  | [] => none
  | c :: cs =>
    match dateAt (c :: cs) with
    | some d => some d
    | none => findDate cs

/-- Leftmost match of `/(C:\\[^\s]+|\/[^\s]+)/` anchored at the head. -/
def pathMatchAt (l : List Char) : Option (List Char) :=
  match l with
  | 'C' :: ':' :: '\\' :: rest =>
    let t := rest.takeWhile (fun c => !c.isWhitespace)
    if t = [] then none else some ('C' :: ':' :: '\\' :: t)
  | '/' :: rest =>
    let t := rest.takeWhile (fun c => !c.isWhitespace)
    if t = [] then none else some ('/' :: t)
  | _ => none

/-- `line.match(/(C:\\[^\s]+|\/[^\s]+)/)` — leftmost match. -/
def pathMatch : List Char → Option (List Char)
  | [] => none
  | c :: cs =>
    match pathMatchAt (c :: cs) with
    | some r => some r
    | none => pathMatch cs

/-- The guard `line.match(/C:\\.*|\/.*\//)`: the line contains `C:\`,
or contains a `/` later followed by another `/`. -/
def pathCond (l : List Char) : Bool :=
  containsSub "C:\\".data l || (l.filter (fun c => c = '/')).length ≥ 2

/-- The model / project-path scan of `extractMetadata` over the first
20 normalized lines; returns `(model, projectPath)`. -/
def metaFold (lines : List (List Char)) : List Char × List Char :=
  (lines.take 20).foldl
    (fun mp line =>
      let m := if containsSub "Opus".data line then "Claude Opus 4.5".data else mp.1
      let m := if containsSub "Sonnet".data line then "Claude Sonnet".data else m
      let p :=
        if pathCond line then
          match pathMatch line with
          | some q => q
          | none => mp.2
        else mp.2
      (m, p))
    ("Claude".data, [])

/-! ## The parse state machine -/

/-- Parser state carried across the scan of `ConversationParser.parse`. -/
structure PState where
  sections : List Section
  cur : Section
  curMsg : Option Message
  inCodeBlock : Bool
  codeContent : List Char
  codeLang : List Char
  deriving DecidableEq, Repr

/-- The initial "Session Start" section. -/
def initSection : Section :=
  { title := "Session Start".data, messages := [], codeBlocks := [], fileChanges := [] }

/-- The initial parser state. -/
def initState : PState :=
  { sections := [], cur := initSection, curMsg := none,
    inCodeBlock := false, codeContent := [], codeLang := [] }

/-- `if (currentMessage) currentSection.messages.push(currentMessage)`. -/
def flushMsg (st : PState) : PState :=
  match st.curMsg with
  | none => st
  | some m => { st with cur := { st.cur with messages := st.cur.messages ++ [m] }, curMsg := none }

/-- Multi-line user-input collection (source lines 92–98): absorb every
following line that starts with neither `●` nor `> `, appending each
non-blank one after a newline; returns the accumulated input and the
remaining lines. -/
def absorb : List (List Char) → List Char → List Char × List (List Char)
  | [], acc => (acc, [])
  | l :: rest, acc =>
    if ['●'].isPrefixOf l || ['>', ' '].isPrefixOf l then (acc, l :: rest)
    else absorb rest (if trim l ≠ [] then acc ++ '\n' :: l else acc)

/-- The user-prompt branch of the scan (source lines 86–118): flush the
open message, absorb the multi-line input, open a `user` message, and
split off a new section when the input is long or contains `?` and the
current section already has messages. -/
def handleUser (line : List Char) (rest : List (List Char)) (st : PState) :
    PState × List (List Char) :=
  let st1 := flushMsg st
  let p := absorb rest (line.drop 2)
  let u := p.1
  let st2 := { st1 with curMsg := some { type := .user, content := trim u } }
  let st3 :=
    if u.length > 50 || u.contains '?' then
      if 0 < st2.cur.messages.length then
        { st2 with
          sections := st2.sections ++ [st2.cur],
          cur := { title := extractTitle u, messages := [], codeBlocks := [], fileChanges := [] } }
      else st2
    else st2
  (st3, p.2)

/-- The tool lists of the change-type dispatch (source lines 133–137). -/
def updateTools : List (List Char) :=
  ["Write".data, "Edit".data, "MultiEdit".data, "NotebookEdit".data]

/-- The search-family tools (source line 135). -/
def searchTools : List (List Char) :=
  ["Grep".data, "Glob".data, "Search".data, "WebSearch".data]

/-- Processing of a single non-prompt line (source lines 120–222):
tool invocation, assistant response, thinking marker, tool-result
continuation, code fences, code-block body, generic continuation. -/
def stepLine (line : List Char) (st : PState) : PState :=
  if toolPatternTest line then
    match toolMatch line with
    | some (toolName, toolArg) =>
      let isGit := toolName = "Bash".data && gitWordTest toolArg
      let changeType : FCType :=
        if toolName ∈ updateTools then .update
        else if toolName ∈ searchTools then .search
        else .read
      let st1 :=
        if toolArg ≠ [] then
          { st with cur := { st.cur with
              fileChanges := st.cur.fileChanges ++
                [{ fileName := toolArg, type := changeType, details := line }] } }
        else st
      let st2 := flushMsg st1
      let msg : Message :=
        { type := if isGit then .git else .tool,
          toolName := some (if isGit then "Git".data else toolName),
          fileName := if toolArg = [] then none else some toolArg,
          content := line,
          isGitAction := some isGit }
      { st2 with curMsg := some msg }
    | none => st
  else if ['●', ' '].isPrefixOf line then
    let st1 := flushMsg st
    { st1 with curMsg := some { type := .assistant, content := line.drop 2 } }
  else if isThinkingLine line then
    let st1 := flushMsg st
    { st1 with curMsg := some { type := .thinking, content := line } }
  else if line.contains '⎿' then
    match st.curMsg with
    | some m =>
      if m.type = .tool || m.type = .git then
        { st with curMsg := some { m with content := m.content ++ '\n' :: line } }
      else st
    | none => st
  else if "```".data.isPrefixOf (trim line) then
    if st.inCodeBlock then
      { st with
        cur := { st.cur with codeBlocks := st.cur.codeBlocks ++
          [{ language := st.codeLang, code := trim st.codeContent }] },
        inCodeBlock := false, codeContent := [] }
    else
      let tag := (trim line).drop 3
      { st with inCodeBlock := true, codeLang := if tag = [] then "text".data else tag }
  else if st.inCodeBlock then
    { st with codeContent := st.codeContent ++ line ++ ['\n'] }
  else
    match st.curMsg with
    | some m =>
      if trim line ≠ [] && "  ".data.isPrefixOf line then
        { st with curMsg := some { m with content := m.content ++ '\n' :: line } }
      else st
    | none => st

/-- The main scan loop; `fuel` bounds the number of iterations and is
instantiated with the line count (every iteration consumes at least one
line, so that is always sufficient). -/
def parseRun : Nat → List (List Char) → PState → PState
  | _, [], st => st
  | 0, _ :: _, st => st
  | fuel + 1, line :: rest, st =>
    if ['>', ' '].isPrefixOf line then
      let p := handleUser line rest st
      parseRun fuel p.2 p.1
    else
      parseRun fuel rest (stepLine line st)

/-- End-of-input handling (source lines 225–231): flush the open message
and keep the last section only when it holds at least one message. -/
def finalize (st : PState) : List Section :=
  let g := flushMsg st
  if 0 < g.cur.messages.length then g.sections ++ [g.cur] else g.sections

/-- The full scan over an already-normalized line sequence. -/
def parseLines (lines : List (List Char)) : List Section :=
  finalize (parseRun lines.length lines initState)

/-! ## Statistics (`calculateStatistics`) -/

/-- The emoji codepoint ranges of the source's `emojiRegex`. -/
def isEmojiChar (c : Char) : Bool :=
  let n := c.toNat
  (0x1F600 ≤ n && n ≤ 0x1F64F) || (0x1F300 ≤ n && n ≤ 0x1F5FF) ||
  (0x1F680 ≤ n && n ≤ 0x1F6FF) || (0x2600 ≤ n && n ≤ 0x26FF) ||
  (0x2700 ≤ n && n ≤ 0x27BF) || (0xFE00 ≤ n && n ≤ 0xFE0F) ||
  (0x1F900 ≤ n && n ≤ 0x1F9FF) || (0x1F1E6 ≤ n && n ≤ 0x1F1FF)

/-- `emojiCounts[emoji] = (emojiCounts[emoji] || 0) + 1` on an
insertion-ordered association list. -/
def bump : List (Char × Nat) → Char → List (Char × Nat)
  | [], c => [(c, 1)]
  | (k, v) :: rest, c =>
    if k = c then (k, v + 1) :: rest else (k, v) :: bump rest c

/-- `Set.prototype.add` on an insertion-ordered list. -/
def addIfAbsent (s : List (List Char)) (f : List Char) : List (List Char) :=
  if f ∈ s then s else s ++ [f]

/-- Accumulator of `calculateStatistics`. -/
structure StatAcc where
  total : Nat := 0
  user : Nat := 0
  assistant : Nat := 0
  thinking : Nat := 0
  tool : Nat := 0
  git : Nat := 0
  fileSet : List (List Char) := []
  cb : Nat := 0
  emoji : List (Char × Nat) := []
  deriving DecidableEq, Repr

/-- Per-message statistics update (source lines 302–322). A `fileName`
enters the distinct-file set only for `tool`-kind messages, and only when
non-empty (the JavaScript truthiness test `if (message.fileName)`). -/
def statMsg (a : StatAcc) (m : Message) : StatAcc :=
  let a := { a with total := a.total + 1 }
  let a := if m.type = .user then { a with user := a.user + 1 } else a
  let a := if m.type = .assistant then { a with assistant := a.assistant + 1 } else a
  let a := if m.type = .thinking then { a with thinking := a.thinking + 1 } else a
  let a := if m.type = .git then { a with git := a.git + 1 } else a
  let a :=
    if m.type = .tool then
      { a with tool := a.tool + 1,
               fileSet :=
                 match m.fileName with
                 | some f => if f ≠ [] then addIfAbsent a.fileSet f else a.fileSet
                 | none => a.fileSet }
    else a
  { a with emoji := (m.content.filter isEmojiChar).foldl bump a.emoji }

/-- `calculateStatistics` over the final section list. -/
def calculateStatistics (secs : List Section) : Stats :=
  let a := secs.foldl
    (fun a sec =>
      let a := sec.messages.foldl statMsg a
      { a with cb := a.cb + sec.codeBlocks.length })
    {}
  { totalMessages := a.total, userMessages := a.user, assistantMessages := a.assistant,
    thinkingMessages := a.thinking, toolMessages := a.tool, gitMessages := a.git,
    filesModified := a.fileSet.length, codeBlocksCount := a.cb, emojiCounts := a.emoji }

/-! ## Specification-side definitions (for refinement claims) -/

/-- A line that is handled by no rule above the code-block-body rule:
inside an open fence such a line goes verbatim into the block buffer. -/
def plainBody (l : List Char) : Prop :=
  ['>', ' '].isPrefixOf l = false ∧ toolPatternTest l = false ∧
  ['●', ' '].isPrefixOf l = false ∧ isThinkingLine l = false ∧
  l.contains '⎿' = false ∧ "```".data.isPrefixOf (trim l) = false

instance (l : List Char) : Decidable (plainBody l) := by
  unfold plainBody; infer_instance

/-- A line that is scanned by the code-fence rule: it matches none of
the higher-priority rules (user prompt, tool invocation, assistant
response, thinking marker, tool-result continuation) and its trimmed
form starts with a triple backtick. -/
def plainFence (l : List Char) : Prop :=
  ['>', ' '].isPrefixOf l = false ∧ toolPatternTest l = false ∧
  ['●', ' '].isPrefixOf l = false ∧ isThinkingLine l = false ∧
  l.contains '⎿' = false ∧ "```".data.isPrefixOf (trim l) = true

instance (l : List Char) : Decidable (plainFence l) := by
  unfold plainFence; infer_instance

/-- Spec-side collection of the distinct-file set: a (non-empty)
`fileName` enters only from a message of kind `tool`. -/
def specMsgFiles (acc : List (List Char)) (m : Message) : List (List Char) :=
  match m.type, m.fileName with
  | .tool, some f => if f ≠ [] then addIfAbsent acc f else acc
  | _, _ => acc

/-- Spec-side distinct files touched: fold `specMsgFiles` over every
message of every section, in order. -/
def specToolFiles (secs : List Section) : List (List Char) :=
  secs.foldl (fun acc sec => sec.messages.foldl specMsgFiles acc) []

/-- Spec-side first ISO-8601 date token: among all substrings of the raw
text enumerated by start position, the first one matching the
`YYYY-MM-DD` shape. -/
def specFirstDate (content : List Char) : Option (List Char) :=
  ((content.tails.map (fun t => t.take 10)).filter dateShape).head?

/-- `ConversationParser.parse` over the raw content; `today` supplies the
default date of `new Date().toISOString().split('T')[0]`. -/
def parse (content : List Char) (today : List Char) : ParsedConversation :=
  let lines := (splitNL content).map normLine
  let secs := parseLines lines
  let mp := metaFold lines
  { title := "Claude Code Session".data,
    date := match findDate content with | some d => d | none => today,
    model := mp.1,
    projectPath := mp.2,
    sections := secs,
    statistics := calculateStatistics secs }

end ConvViewer

namespace ConvViewer

/-! ## Helper lemmas -/

lemma flushMsg_sections (st : PState) : (flushMsg st).sections = st.sections := by
  unfold flushMsg; cases st.curMsg <;> rfl

lemma stepLine_sections (line : List Char) (st : PState) :
    (stepLine line st).sections = st.sections := by
  unfold stepLine
  repeat' split
  all_goals first | rfl | simp [flushMsg_sections]

lemma normLine_of_not_shape (l : List Char) (h : numArrowShape l = false) :
    normLine l = l := by
  unfold normLine
  unfold numArrowShape at h
  cases hds : (l.dropWhile Char.isWhitespace).takeWhile Char.isDigit with
  | nil => simp [hds]
  | cons d ds =>
    cases hrest : (l.dropWhile Char.isWhitespace).dropWhile Char.isDigit with
    | nil => simp [hds, hrest]
    | cons c r =>
      simp only [hds, hrest] at h ⊢
      simp only [decide_eq_false_iff_not] at h
      simp [h]

lemma specFirstDate_cons (c : Char) (cs : List Char) :
    specFirstDate (c :: cs) =
      if dateShape ((c :: cs).take 10) = true then some ((c :: cs).take 10)
      else specFirstDate cs := by
  unfold specFirstDate
  rw [List.tails_cons, List.map_cons, List.filter_cons]
  cases hps : dateShape ((c :: cs).take 10) with
  | true => simp
  | false => simp

lemma findDate_eq_spec : ∀ l, findDate l = specFirstDate l
  | [] => rfl
  | c :: cs => by
    rw [specFirstDate_cons]
    show (match dateAt (c :: cs) with | some d => some d | none => findDate cs) = _
    unfold dateAt
    by_cases hs : dateShape ((c :: cs).take 10) = true
    · rw [if_pos hs, if_pos hs]
    · rw [if_neg hs, if_neg hs]
      exact findDate_eq_spec cs

lemma parseRun_nil (fuel : Nat) (st : PState) : parseRun fuel [] st = st := by
  cases fuel <;> rfl

lemma stepLine_body (line : List Char) (st : PState)
    (h : plainBody line) (hcb : st.inCodeBlock = true) :
    stepLine line st = { st with codeContent := st.codeContent ++ line ++ ['\n'] } := by
  obtain ⟨h1, h2, h3, h4, h5, h6⟩ := h
  have h5' : ¬ '⎿' ∈ line := by simpa using h5
  simp [stepLine, h2, h3, h4, h5', h6, hcb]

lemma parseRun_cons_step (fuel : Nat) (line : List Char) (rest : List (List Char)) (st : PState)
    (h : ['>', ' '].isPrefixOf line = false) :
    parseRun (fuel + 1) (line :: rest) st = parseRun fuel rest (stepLine line st) := by
  simp [parseRun, h]

lemma parseRun_cons_user (fuel : Nat) (line : List Char) (rest : List (List Char)) (st : PState)
    (h : ['>', ' '].isPrefixOf line = true) :
    parseRun (fuel + 1) (line :: rest) st =
      parseRun fuel (handleUser line rest st).2 (handleUser line rest st).1 := by
  simp [parseRun, h]

lemma parseRun_codeBody (B : List (List Char)) :
    ∀ (fuel : Nat) (rest : List (List Char)) (st : PState),
    (∀ b ∈ B, plainBody b) → st.inCodeBlock = true → B.length ≤ fuel →
    parseRun fuel (B ++ rest) st =
      parseRun (fuel - B.length) rest
        { st with codeContent := st.codeContent ++ (B.map (fun b => b ++ ['\n'])).flatten } := by
  induction B with
  | nil => intro fuel rest st _ _ _; simp
  | cons b B ih =>
    intro fuel rest st hB hcb hlen
    cases fuel with
    | zero => simp at hlen
    | succ f =>
      have hb := hB b (List.mem_cons_self b B)
      rw [List.cons_append, parseRun_cons_step f b (B ++ rest) st hb.1,
          stepLine_body b st hb hcb]
      have hrec := ih f rest { st with codeContent := st.codeContent ++ b ++ ['\n'] }
        (fun x hx => hB x (List.mem_cons_of_mem _ hx)) hcb
        (by simp at hlen ⊢; omega)
      rw [hrec]
      simp [List.append_assoc, Nat.succ_sub_succ]

lemma parseRun_codeBody_ex (B : List (List Char)) :
    ∀ (fuel : Nat) (st : PState),
    (∀ b ∈ B, plainBody b) → st.inCodeBlock = true →
    ∃ cc, parseRun fuel B st = { st with codeContent := cc } := by
  induction B with
  | nil => intro fuel st _ _; exact ⟨st.codeContent, by rw [parseRun_nil]⟩
  | cons b B ih =>
    intro fuel st hB hcb
    cases fuel with
    | zero => exact ⟨st.codeContent, rfl⟩
    | succ f =>
      have hb := hB b (List.mem_cons_self b B)
      rw [parseRun_cons_step f b B st hb.1, stepLine_body b st hb hcb]
      obtain ⟨cc, hcc⟩ := ih f { st with codeContent := st.codeContent ++ b ++ ['\n'] }
        (fun x hx => hB x (List.mem_cons_of_mem _ hx)) hcb
      exact ⟨cc, by rw [hcc]⟩

lemma backtick_prefix (L : List Char) :
    "```".data.isPrefixOf ('`' :: '`' :: '`' :: L) = true := by
  have h : "```".data = ['`', '`', '`'] := by decide
  rw [h]
  simp [List.isPrefixOf]

lemma stepLine_fence_open (line : List Char) (st : PState)
    (hT : toolPatternTest line = false)
    (hA : ['●', ' '].isPrefixOf line = false)
    (hTh : isThinkingLine line = false)
    (hR : line.contains '⎿' = false)
    (hPf : "```".data.isPrefixOf (trim line) = true)
    (hcb : st.inCodeBlock = false) :
    stepLine line st =
      { st with inCodeBlock := true,
                codeLang := if (trim line).drop 3 = [] then "text".data
                            else (trim line).drop 3 } := by
  have hR' : ¬ '⎿' ∈ line := by simpa using hR
  simp [stepLine, hT, hA, hTh, hR', hPf, hcb]

lemma stepLine_fence_close (line : List Char) (st : PState)
    (hT : toolPatternTest line = false)
    (hA : ['●', ' '].isPrefixOf line = false)
    (hTh : isThinkingLine line = false)
    (hR : line.contains '⎿' = false)
    (hPf : "```".data.isPrefixOf (trim line) = true)
    (hcb : st.inCodeBlock = true) :
    stepLine line st =
      { st with
        cur := { st.cur with codeBlocks := st.cur.codeBlocks ++
          [{ language := st.codeLang, code := trim st.codeContent }] },
        inCodeBlock := false, codeContent := [] } := by
  have hR' : ¬ '⎿' ∈ line := by simpa using hR
  simp [stepLine, hT, hA, hTh, hR', hPf, hcb]

lemma normLine_shape_shorter (l : List Char) (h : numArrowShape l = true) :
    (normLine l).length < l.length := by
  unfold numArrowShape at h
  unfold normLine
  cases hds : (l.dropWhile Char.isWhitespace).takeWhile Char.isDigit with
  | nil => rw [hds] at h; simp at h
  | cons d ds =>
    cases hrest : (l.dropWhile Char.isWhitespace).dropWhile Char.isDigit with
    | nil => rw [hds, hrest] at h; simp at h
    | cons c r =>
      rw [hds, hrest] at h
      simp only [decide_eq_true_eq] at h
      simp only [hds, hrest, h, if_pos]
      have h1 : (l.dropWhile Char.isWhitespace).length ≤ l.length :=
        (l.dropWhile_sublist Char.isWhitespace).length_le
      have h2 : (d :: ds) ++ (c :: r) = l.dropWhile Char.isWhitespace := by
        rw [← hds, ← hrest]
        exact List.takeWhile_append_dropWhile Char.isDigit (l.dropWhile Char.isWhitespace)
      rw [← h2] at h1
      simp [List.length_append] at h1
      omega

lemma map_normLine_fix (L : List (List Char)) (h : L.map normLine = L) :
    ∀ x ∈ L, normLine x = x := by
  induction L with
  | nil => intro x hx; cases hx
  | cons a t ih =>
    rw [List.map_cons] at h
    have ha : normLine a = a := (List.cons.injEq _ _ _ _ ▸ h).1
    have ht : t.map normLine = t := (List.cons.injEq _ _ _ _ ▸ h).2
    intro x hx
    rcases List.mem_cons.mp hx with rfl | hx
    · exact ha
    · exact ih ht x hx

lemma finalize_update (st : PState) (x : Bool) (y z : List Char) :
    finalize { st with inCodeBlock := x, codeContent := y, codeLang := z } = finalize st := by
  unfold finalize flushMsg
  rcases hm : st.curMsg with _ | m <;> simp [hm]

lemma handleUser_sections_msgs (line : List Char) (rest : List (List Char)) (st : PState)
    (h : ∀ s ∈ st.sections, s.messages ≠ []) :
    ∀ s ∈ (handleUser line rest st).1.sections, s.messages ≠ [] := by
  intro s hs
  unfold handleUser at hs
  simp only at hs
  split at hs
  · split at hs
    · simp only [flushMsg_sections] at hs
      rcases List.mem_append.mp hs with h1 | h2
      · exact h s h1
      · rename_i hlen
        have hse : s = (flushMsg st).cur := by simpa using h2
        subst hse
        exact List.ne_nil_of_length_pos (by simpa using hlen)
    · simp only [flushMsg_sections] at hs
      exact h s hs
  · simp only [flushMsg_sections] at hs
    exact h s hs

lemma parseRun_sections_msgs (fuel : Nat) :
    ∀ (lines : List (List Char)) (st : PState),
    (∀ s ∈ st.sections, s.messages ≠ []) →
    ∀ s ∈ (parseRun fuel lines st).sections, s.messages ≠ [] := by
  induction fuel with
  | zero =>
    intro lines st h
    cases lines with
    | nil => simpa [parseRun_nil] using h
    | cons l rest => exact h
  | succ f ih =>
    intro lines st h
    cases lines with
    | nil => simpa [parseRun_nil] using h
    | cons line rest =>
      cases hp : ['>', ' '].isPrefixOf line with
      | true =>
        rw [parseRun_cons_user f line rest st hp]
        exact ih _ _ (handleUser_sections_msgs _ _ _ h)
      | false =>
        rw [parseRun_cons_step f line rest st hp]
        refine ih _ _ ?_
        intro s hs
        rw [stepLine_sections] at hs
        exact h s hs

lemma finalize_msgs (st : PState)
    (hsec : ∀ s ∈ st.sections, s.messages ≠ []) :
    ∀ s ∈ finalize st, s.messages ≠ [] := by
  intro s hs
  unfold finalize at hs
  simp only at hs
  split at hs
  · rcases List.mem_append.mp hs with h1 | h2
    · exact hsec s (by rwa [flushMsg_sections] at h1)
    · rename_i hlen
      have hse : s = (flushMsg st).cur := by simpa using h2
      subst hse
      exact List.ne_nil_of_length_pos (by simpa using hlen)
  · exact hsec s (by rwa [flushMsg_sections] at hs)

lemma stepLine_cur_messages_cases (line : List Char) (st : PState) :
    (stepLine line st).cur.messages = st.cur.messages ∨
    (∃ m, st.curMsg = some m ∧ (stepLine line st).cur.messages = st.cur.messages ++ [m]) := by
  unfold stepLine
  repeat' split
  all_goals try (left; rfl)
  all_goals (unfold flushMsg; rcases hm : st.curMsg with _ | m0)
  all_goals simp [hm]

lemma stepLine_curMsg_cases (line : List Char) (st : PState) :
    (stepLine line st).curMsg = st.curMsg ∨
    (∃ m, (stepLine line st).curMsg = some m ∧ m.type ≠ .system) ∨
    (∃ m, st.curMsg = some m ∧
      (stepLine line st).curMsg = some { m with content := m.content ++ '\n' :: line }) := by
  unfold stepLine
  repeat' split
  all_goals try (left; rfl)
  all_goals try (right; right; rename_i m0 hm0 _; exact ⟨m0, hm0, rfl⟩)
  all_goals (right; left)
  all_goals try (unfold flushMsg; rcases hm : st.curMsg with _ | m0)
  all_goals simp [hm]
  all_goals split <;> simp

lemma flushMsg_no_system (st : PState)
    (h2 : ∀ m ∈ st.cur.messages, m.type ≠ .system)
    (h3 : ∀ m, st.curMsg = some m → m.type ≠ .system) :
    ∀ m ∈ (flushMsg st).cur.messages, m.type ≠ .system := by
  unfold flushMsg
  rcases hm : st.curMsg with _ | m0
  · exact h2
  · intro m hmem
    simp only at hmem
    rcases List.mem_append.mp hmem with h | h
    · exact h2 m h
    · have he : m = m0 := by simpa using h
      rw [he]; exact h3 m0 hm

lemma stepLine_no_system (line : List Char) (st : PState)
    (h2 : ∀ m ∈ st.cur.messages, m.type ≠ .system)
    (h3 : ∀ m, st.curMsg = some m → m.type ≠ .system) :
    (∀ m ∈ (stepLine line st).cur.messages, m.type ≠ .system) ∧
    (∀ m, (stepLine line st).curMsg = some m → m.type ≠ .system) := by
  constructor
  · rcases stepLine_cur_messages_cases line st with h | ⟨m0, hm0, h⟩
    · rw [h]; exact h2
    · rw [h]
      intro m hm
      rcases List.mem_append.mp hm with h' | h'
      · exact h2 m h'
      · have he : m = m0 := by simpa using h'
        rw [he]; exact h3 m0 hm0
  · rcases stepLine_curMsg_cases line st with h | ⟨m0, hm0, hty⟩ | ⟨m0, hm0, h⟩
    · rw [h]; exact h3
    · intro m hm
      have he : m0 = m := by
        have := hm0.symm.trans hm
        simpa using this
      rw [← he]; exact hty
    · intro m hm
      have he : { m0 with content := m0.content ++ '\n' :: line } = m := by
        have := h.symm.trans hm
        simpa using this
      rw [← he]
      exact h3 m0 hm0

lemma handleUser_no_system (line : List Char) (rest : List (List Char)) (st : PState)
    (h1 : ∀ s ∈ st.sections, ∀ m ∈ s.messages, m.type ≠ .system)
    (h2 : ∀ m ∈ st.cur.messages, m.type ≠ .system)
    (h3 : ∀ m, st.curMsg = some m → m.type ≠ .system) :
    (∀ s ∈ (handleUser line rest st).1.sections, ∀ m ∈ s.messages, m.type ≠ .system) ∧
    (∀ m ∈ (handleUser line rest st).1.cur.messages, m.type ≠ .system) ∧
    (∀ m, (handleUser line rest st).1.curMsg = some m → m.type ≠ .system) := by
  unfold handleUser
  simp only
  split
  · split
    · refine ⟨?_, ?_, ?_⟩
      · intro s hs
        rcases List.mem_append.mp hs with h' | h'
        · exact h1 s (by rwa [flushMsg_sections] at h')
        · have : s = (flushMsg st).cur := by simpa using h'
          subst this
          exact flushMsg_no_system st h2 h3
      · intro m hm; simp at hm
      · intro m hm
        have : m = { type := MType.user, content := trim (absorb rest (line.drop 2)).1 } := by
          simpa using hm.symm
        subst this; simp
    · refine ⟨?_, ?_, ?_⟩
      · intro s hs
        exact h1 s (by rwa [flushMsg_sections] at hs)
      · exact flushMsg_no_system st h2 h3
      · intro m hm
        have : m = { type := MType.user, content := trim (absorb rest (line.drop 2)).1 } := by
          simpa using hm.symm
        subst this; simp
  · refine ⟨?_, ?_, ?_⟩
    · intro s hs
      exact h1 s (by rwa [flushMsg_sections] at hs)
    · exact flushMsg_no_system st h2 h3
    · intro m hm
      have : m = { type := MType.user, content := trim (absorb rest (line.drop 2)).1 } := by
        simpa using hm.symm
      subst this; simp

lemma parseRun_no_system (fuel : Nat) :
    ∀ (lines : List (List Char)) (st : PState),
    (∀ s ∈ st.sections, ∀ m ∈ s.messages, m.type ≠ .system) →
    (∀ m ∈ st.cur.messages, m.type ≠ .system) →
    (∀ m, st.curMsg = some m → m.type ≠ .system) →
    (∀ s ∈ (parseRun fuel lines st).sections, ∀ m ∈ s.messages, m.type ≠ .system) ∧
    (∀ m ∈ (parseRun fuel lines st).cur.messages, m.type ≠ .system) ∧
    (∀ m, (parseRun fuel lines st).curMsg = some m → m.type ≠ .system) := by
  induction fuel with
  | zero =>
    intro lines st h1 h2 h3
    cases lines with
    | nil => rw [parseRun_nil]; exact ⟨h1, h2, h3⟩
    | cons l rest => exact ⟨h1, h2, h3⟩
  | succ f ih =>
    intro lines st h1 h2 h3
    cases lines with
    | nil => rw [parseRun_nil]; exact ⟨h1, h2, h3⟩
    | cons line rest =>
      cases hp : ['>', ' '].isPrefixOf line with
      | true =>
        rw [parseRun_cons_user f line rest st hp]
        obtain ⟨g1, g2, g3⟩ := handleUser_no_system line rest st h1 h2 h3
        exact ih _ _ g1 g2 g3
      | false =>
        rw [parseRun_cons_step f line rest st hp]
        obtain ⟨g2, g3⟩ := stepLine_no_system line st h2 h3
        refine ih _ _ ?_ g2 g3
        intro s hs
        rw [stepLine_sections] at hs
        exact h1 s hs

lemma finalize_no_system (st : PState)
    (h1 : ∀ s ∈ st.sections, ∀ m ∈ s.messages, m.type ≠ .system)
    (h2 : ∀ m ∈ st.cur.messages, m.type ≠ .system)
    (h3 : ∀ m, st.curMsg = some m → m.type ≠ .system) :
    ∀ s ∈ finalize st, ∀ m ∈ s.messages, m.type ≠ .system := by
  intro s hs
  unfold finalize at hs
  simp only at hs
  split at hs
  · rcases List.mem_append.mp hs with h' | h'
    · exact h1 s (by rwa [flushMsg_sections] at h')
    · have : s = (flushMsg st).cur := by simpa using h'
      subst this
      exact flushMsg_no_system st h2 h3
  · exact h1 s (by rwa [flushMsg_sections] at hs)

lemma statMsg_partition (a : StatAcc) (m : Message) (h : m.type ≠ .system)
    (ha : a.total = a.user + a.assistant + a.thinking + a.tool + a.git) :
    (statMsg a m).total = (statMsg a m).user + (statMsg a m).assistant +
      (statMsg a m).thinking + (statMsg a m).tool + (statMsg a m).git := by
  cases ht : m.type
  case system => exact absurd ht h
  all_goals (simp [statMsg, ht]; omega)

lemma statMsg_fileSet (a : StatAcc) (m : Message) :
    (statMsg a m).fileSet = specMsgFiles a.fileSet m := by
  rcases m with ⟨t, c, tn, fn, g⟩
  cases t <;> cases fn <;> simp [statMsg, specMsgFiles]

lemma foldl_statMsg_fileSet (msgs : List Message) :
    ∀ a : StatAcc, (msgs.foldl statMsg a).fileSet = msgs.foldl specMsgFiles a.fileSet := by
  induction msgs with
  | nil => intro a; rfl
  | cons m ms ih =>
    intro a
    rw [List.foldl_cons, List.foldl_cons, ih, statMsg_fileSet]

lemma foldSecs_fileSet (secs : List Section) :
    ∀ a : StatAcc,
    (secs.foldl (fun a sec =>
        let a := sec.messages.foldl statMsg a
        { a with cb := a.cb + sec.codeBlocks.length }) a).fileSet =
      secs.foldl (fun acc sec => sec.messages.foldl specMsgFiles acc) a.fileSet := by
  induction secs with
  | nil => intro a; rfl
  | cons s ss ih =>
    intro a
    rw [List.foldl_cons, List.foldl_cons, ih]
    simp only
    rw [foldl_statMsg_fileSet]

lemma calculateStatistics_filesModified (secs : List Section) :
    (calculateStatistics secs).filesModified = (specToolFiles secs).length := by
  unfold calculateStatistics specToolFiles
  simp only
  rw [foldSecs_fileSet]

lemma foldl_statMsg_partition (msgs : List Message) :
    ∀ a : StatAcc, (∀ m ∈ msgs, m.type ≠ .system) →
    a.total = a.user + a.assistant + a.thinking + a.tool + a.git →
    (msgs.foldl statMsg a).total = (msgs.foldl statMsg a).user +
      (msgs.foldl statMsg a).assistant + (msgs.foldl statMsg a).thinking +
      (msgs.foldl statMsg a).tool + (msgs.foldl statMsg a).git := by
  induction msgs with
  | nil => intro a _ ha; exact ha
  | cons m ms ih =>
    intro a hm ha
    rw [List.foldl_cons]
    exact ih _ (fun x hx => hm x (List.mem_cons_of_mem _ hx))
      (statMsg_partition a m (hm m (List.mem_cons_self m ms)) ha)

lemma foldSecs_partition (secs : List Section) :
    ∀ a : StatAcc, (∀ s ∈ secs, ∀ m ∈ s.messages, m.type ≠ .system) →
    a.total = a.user + a.assistant + a.thinking + a.tool + a.git →
    (secs.foldl (fun a sec =>
        let a := sec.messages.foldl statMsg a
        { a with cb := a.cb + sec.codeBlocks.length }) a).total =
      (secs.foldl (fun a sec =>
        let a := sec.messages.foldl statMsg a
        { a with cb := a.cb + sec.codeBlocks.length }) a).user +
      (secs.foldl (fun a sec =>
        let a := sec.messages.foldl statMsg a
        { a with cb := a.cb + sec.codeBlocks.length }) a).assistant +
      (secs.foldl (fun a sec =>
        let a := sec.messages.foldl statMsg a
        { a with cb := a.cb + sec.codeBlocks.length }) a).thinking +
      (secs.foldl (fun a sec =>
        let a := sec.messages.foldl statMsg a
        { a with cb := a.cb + sec.codeBlocks.length }) a).tool +
      (secs.foldl (fun a sec =>
        let a := sec.messages.foldl statMsg a
        { a with cb := a.cb + sec.codeBlocks.length }) a).git := by
  induction secs with
  | nil => intro a _ ha; exact ha
  | cons s ss ih =>
    intro a hs ha
    rw [List.foldl_cons]
    exact ih _ (fun x hx => hs x (List.mem_cons_of_mem _ hx))
      (foldl_statMsg_partition s.messages a (hs s (List.mem_cons_self s ss)) ha)

lemma calculateStatistics_partition (secs : List Section)
    (h : ∀ s ∈ secs, ∀ m ∈ s.messages, m.type ≠ .system) :
    (calculateStatistics secs).totalMessages =
      (calculateStatistics secs).userMessages +
      (calculateStatistics secs).assistantMessages +
      (calculateStatistics secs).thinkingMessages +
      (calculateStatistics secs).toolMessages +
      (calculateStatistics secs).gitMessages := by
  unfold calculateStatistics
  simp only
  exact foldSecs_partition secs {} h rfl

/-! ## Claim theorems -/

/-- C1 (counterexample): on the two-line scenario input the single section is titled `Session Start`, not the title derived from the prompt's first six words, so the claim as stated fails. -/
theorem C1_counterexample :
    ((parse ("> What is the plan for refactoring the auth module across all twelve services?\n● Read(src/auth.go)".data) []).sections.map
        (fun s => s.title) = ["Session Start".data]) ∧
    extractTitle ("What is the plan for refactoring the auth module across all twelve services?".data) =
      "What is the plan for refactoring".data ∧
    "Session Start".data ≠ "What is the plan for refactoring".data := by
  refine ⟨by decide, by decide, by decide⟩

/-- C1 (amended): the scenario input produces exactly one section, titled `Session Start` (the initial section is never retitled because a section split requires the section under construction to already hold a message), containing the `user` message and a `tool` message with fileName `src/auth.go` of read type, with one recorded file change and `filesModified = 1`. -/
theorem C1_scenario : ∀ today : List Char,
    (parse ("> What is the plan for refactoring the auth module across all twelve services?\n● Read(src/auth.go)".data) today).sections =
      [{ title := "Session Start".data,
         messages := [
           { type := .user,
             content := "What is the plan for refactoring the auth module across all twelve services?".data },
           { type := .tool, content := "● Read(src/auth.go)".data,
             toolName := some "Read".data, fileName := some "src/auth.go".data,
             isGitAction := some false }],
         codeBlocks := [],
         fileChanges := [{ fileName := "src/auth.go".data, type := .read,
                           details := "● Read(src/auth.go)".data }] }] ∧
    (parse ("> What is the plan for refactoring the auth module across all twelve services?\n● Read(src/auth.go)".data) today).statistics.filesModified = 1 :=
  fun _ => ⟨rfl, rfl⟩

/-- C2 (counterexample): a prompt of 49 `a`s followed by two trailing spaces has untrimmed length 51 but trimmed length 49 and no question mark; with one message already in the section, the parser still opens a new section (2 sections in total), refuting the claim that the trimmed text drives the split. -/
theorem C2_counterexample :
    ((parse ("● hi\n> ".data ++ List.replicate 49 'a' ++ "  ".data) []).sections.length = 2) ∧
    (trim (List.replicate 49 'a' ++ "  ".data)).length ≤ 50 ∧
    ((List.replicate 49 'a' ++ "  ".data).contains '?' = false) ∧
    ((splitNL ("● hi\n> ".data ++ List.replicate 49 'a' ++ "  ".data)).map normLine =
      ["● hi".data, "> ".data ++ (List.replicate 49 'a' ++ "  ".data)]) := by
  refine ⟨by decide, by decide, by decide, by decide⟩

/-- C2 (amended): on a user-prompt line, the parser closes the current section and opens a new titled section if and only if the accumulated prompt text BEFORE trimming exceeds 50 characters or contains a question mark, AND the section being built (after flushing the open message) already holds at least one message; otherwise sections are unchanged and the new user message stays in the current section. -/
theorem C2_section_split (line : List Char) (rest : List (List Char)) (st : PState)
    (u : List Char)
    (hp : ['>', ' '].isPrefixOf line = true)
    (hu : (absorb rest (line.drop 2)).1 = u) :
    ((handleUser line rest st).1.curMsg = some { type := .user, content := trim u }) ∧
    (((u.length > 50 || u.contains '?') = true ∧ 0 < (flushMsg st).cur.messages.length) →
      (handleUser line rest st).1.sections = (flushMsg st).sections ++ [(flushMsg st).cur] ∧
      (handleUser line rest st).1.cur =
        { title := extractTitle u, messages := [], codeBlocks := [], fileChanges := [] }) ∧
    (((u.length > 50 || u.contains '?') = false ∨ (flushMsg st).cur.messages.length = 0) →
      (handleUser line rest st).1.sections = (flushMsg st).sections ∧
      (handleUser line rest st).1.cur = (flushMsg st).cur) := by
  subst hu
  refine ⟨?_, ?_, ?_⟩
  · unfold handleUser
    simp only
    split
    · split <;> rfl
    · rfl
  · intro ⟨hc, hlen⟩
    unfold handleUser
    simp only
    split
    all_goals try split
    all_goals first
      | exact ⟨rfl, rfl⟩
      | (rename_i hnot; exact absurd hlen hnot)
      | (rename_i hnot; exact absurd hc hnot)
  · intro hd
    unfold handleUser
    simp only
    split
    all_goals try split
    all_goals try exact ⟨rfl, rfl⟩
    all_goals rename_i hcc hll
    all_goals rcases hd with hd | hd
    all_goals first
      | (rw [hd] at hcc; exact absurd hcc (by decide))
      | (rw [hd] at hll; exact absurd hll (lt_irrefl 0))
      | (exact absurd (show 0 < (flushMsg st).cur.messages.length from hll)
           (by rw [hd]; exact lt_irrefl 0))

/-- Witness for C2: a concrete prompt containing a question mark splits off the nonempty current section. -/
theorem C2_section_split_witness :
    (handleUser ("> hello?".data) []
      { sections := [],
        cur := { title := "Session Start".data,
                 messages := [{ type := MType.assistant, content := "hi".data,
                                toolName := none, fileName := none, isGitAction := none }],
                 codeBlocks := [], fileChanges := [], summary := none },
        curMsg := none, inCodeBlock := false, codeContent := [], codeLang := [] }).1.sections =
      [{ title := "Session Start".data,
         messages := [{ type := MType.assistant, content := "hi".data,
                        toolName := none, fileName := none, isGitAction := none }],
         codeBlocks := [], fileChanges := [], summary := none }] :=
  ((C2_section_split ("> hello?".data) [] _ ("hello?".data) (by decide) rfl).2.1
    ⟨by decide, by decide⟩).1

/-- C3: for a line that did not match the user-prompt, tool-invocation, or assistant-response rules, the parser opens a thinking message (after flushing the open message) with the raw line as content if and only if the line matches an opening thinking tag, a bracketed thinking marker (case-insensitive), or a `thinking:` prefix (case-insensitive); otherwise no new message is opened (the open message is at most extended). -/
theorem C3_thinking (line : List Char) (st : PState)
    (h1 : ['>', ' '].isPrefixOf line = false)
    (h2 : toolPatternTest line = false)
    (h3 : ['●', ' '].isPrefixOf line = false) :
    (isThinkingLine line = true →
      stepLine line st =
        { flushMsg st with curMsg := some { type := .thinking, content := line } }) ∧
    (isThinkingLine line = false →
      (stepLine line st).curMsg = st.curMsg ∨
      ∃ m, st.curMsg = some m ∧
        (stepLine line st).curMsg = some { m with content := m.content ++ '\n' :: line }) := by
  constructor
  · intro ht
    simp [stepLine, h2, h3, ht]
  · intro hf
    simp only [stepLine, h2, h3, hf]
    simp only [Bool.false_eq_true, if_false]
    repeat' split
    all_goals try (left; rfl)
    all_goals (rename_i m0 hm0 _; right; exact ⟨m0, hm0, rfl⟩)

/-- Witness for C3: a bracketed thinking marker opens a thinking message from the initial state. -/
theorem C3_thinking_witness :
    stepLine ("[thinking] check".data) initState =
      { initState with
        curMsg := some { type := MType.thinking, content := "[thinking] check".data } } :=
  (C3_thinking ("[thinking] check".data) initState (by decide) (by decide) (by decide)).1
    (by decide)

/-- C4: every section in the returned conversation contains at least one message, and the code-only scenario input yields an empty section list with `codeBlocksCount = 0` (its code block is dropped with the section). -/
theorem C4_sections :
    (∀ (content today : List Char), ∀ s ∈ (parse content today).sections, s.messages ≠ []) ∧
    (∀ today : List Char,
      (parse ("```python\nprint(1)\n```".data) today).sections = [] ∧
      (parse ("```python\nprint(1)\n```".data) today).statistics.codeBlocksCount = 0) := by
  constructor
  · intro content today s hs
    have hsec : (parse content today).sections =
        parseLines ((splitNL content).map normLine) := rfl
    rw [hsec] at hs
    unfold parseLines at hs
    exact finalize_msgs _ (parseRun_sections_msgs _ _ _ (by simp [initState])) s hs
  · intro today
    exact ⟨rfl, rfl⟩

/-- Witness for C4: the section produced by a one-assistant-line input is retained and nonempty. -/
theorem C4_witness :
    ({ title := "Session Start".data,
       messages := [{ type := MType.assistant, content := "hi".data,
                      toolName := none, fileName := none, isGitAction := none }],
       codeBlocks := [], fileChanges := [], summary := none } : Section) ∈
      (parse ("● hi".data) []).sections ∧
    ({ title := "Session Start".data,
       messages := [{ type := MType.assistant, content := "hi".data,
                      toolName := none, fileName := none, isGitAction := none }],
       codeBlocks := [], fileChanges := [], summary := none } : Section).messages ≠ [] :=
  ⟨by decide, C4_sections.1 ("● hi".data) [] _ (by decide)⟩

/-- C5 (counterexample): an input that is exactly one balanced fenced block (language `js`, body `console.log(1)`) produces NO CodeBlock at all, because the enclosing message-less section is discarded; the claim fails for such inputs. -/
theorem C5_counterexample :
    ((splitNL ("```js\nconsole.log(1)\n```".data)).map normLine =
      ["```js".data, "console.log(1)".data, "```".data]) ∧
    (parse ("```js\nconsole.log(1)\n```".data) []).sections = [] := by
  refine ⟨by decide, by decide⟩

/-- C5 (amended): for every scan state outside a code block with an empty block buffer (as at the start of the scan and after every flushed block), every input prefix reaching that state, and every continuation of the input: a balanced pair of fence lines (each scanned by the fence rule, i.e. matching no higher-priority rule, with arbitrary indentation) enclosing body lines `B` appends exactly one CodeBlock to the section current at the closing fence, whose language is the opening fence's tag (defaulting to `text` when the tag is empty) and whose code is `trim(B)`; nothing else in the state changes except the remembered fence language and the reset buffer. The block then reaches the output exactly when that section is retained (holds at least one message) — the counterexample shows it is lost otherwise. -/
theorem C5_code_fence (f : List Char) (B : List (List Char)) (g : List Char)
    (rest : List (List Char)) (st : PState) (fuel : Nat)
    (hf : plainFence f) (hg : plainFence g) (hB : ∀ b ∈ B, plainBody b)
    (hcb : st.inCodeBlock = false) (hbuf : st.codeContent = [])
    (hfuel : B.length + 2 ≤ fuel) :
    parseRun fuel (f :: (B ++ g :: rest)) st =
      parseRun (fuel - (B.length + 2)) rest
        { st with
          cur := { st.cur with codeBlocks := st.cur.codeBlocks ++
            [{ language := if (trim f).drop 3 = [] then "text".data else (trim f).drop 3,
               code := trim ((B.map (fun b => b ++ ['\n'])).flatten),
               fileName := none }] },
          inCodeBlock := false, codeContent := [],
          codeLang := if (trim f).drop 3 = [] then "text".data else (trim f).drop 3 } := by
  obtain ⟨hf1, hf2, hf3, hf4, hf5, hf6⟩ := hf
  obtain ⟨hg1, hg2, hg3, hg4, hg5, hg6⟩ := hg
  cases fuel with
  | zero => omega
  | succ f1 =>
    rw [parseRun_cons_step f1 f (B ++ g :: rest) st hf1]
    rw [stepLine_fence_open f st hf2 hf3 hf4 hf5 hf6 hcb]
    rw [parseRun_codeBody B f1 (g :: rest) _ hB rfl (by omega)]
    have harith : f1 - B.length = (f1 - B.length - 1) + 1 := by omega
    rw [harith]
    rw [parseRun_cons_step (f1 - B.length - 1) g rest _ hg1]
    rw [stepLine_fence_close g _ hg2 hg3 hg4 hg5 hg6 rfl]
    rw [show f1 + 1 - (B.length + 2) = f1 - B.length - 1 from by omega]
    rw [hbuf]
    rfl

/-- Witness for C5: from the initial state, a `python` fence with body `print(1)` and a bare closing fence appends exactly that CodeBlock to the current section. -/
theorem C5_code_fence_witness :
    parseRun 3 ["```python".data, "print(1)".data, "```".data] initState =
      { initState with
        cur := { initSection with codeBlocks :=
          [{ language := "python".data, code := "print(1)".data, fileName := none }] },
        inCodeBlock := false, codeContent := [],
        codeLang := "python".data } :=
  C5_code_fence ("```python".data) ["print(1)".data] ("```".data) [] initState 3
    (by decide) (by decide) (by decide) rfl rfl (by decide)

/-- C6 (counterexample): normalizing the line `1→2→x` once gives `2→x`, and normalizing again gives `x`, so the Line Normalizer is not idempotent on all inputs. -/
theorem C6_counterexample :
    ((splitNL ("1→2→x".data)).map normLine).map normLine ≠
      (splitNL ("1→2→x".data)).map normLine := by decide

/-- C6 (amended): the Line Normalizer strips one number-arrow prefix per application; running it a second time is a no-op (idempotence) exactly when no once-normalized line still matches the `whitespace digits arrow` prefix shape: shape-free normalized lines pass through unchanged, and a normalized line that still has the shape loses at least two characters on the second pass, so the second pass is then not a no-op. -/
theorem C6_idem (ls : List (List Char)) :
    (∀ l ∈ ls.map normLine, numArrowShape l = false) ↔
      (ls.map normLine).map normLine = ls.map normLine := by
  constructor
  · intro h
    have aux : ∀ L : List (List Char), (∀ l ∈ L, numArrowShape l = false) →
        L.map normLine = L := by
      intro L
      induction L with
      | nil => intro _; rfl
      | cons x xs ih =>
        intro hL
        rw [List.map_cons, normLine_of_not_shape x (hL x (List.mem_cons_self x xs)),
            ih (fun y hy => hL y (List.mem_cons_of_mem _ hy))]
    exact aux _ h
  · intro h l hl
    cases hv : numArrowShape l with
    | false => rfl
    | true =>
      have hfix := map_normLine_fix _ h l hl
      have hlt := normLine_shape_shorter l hv
      rw [hfix] at hlt
      exact absurd hlt (lt_irrefl _)

/-- Witness for C6: a two-line input whose normalized lines carry no residual prefix is unchanged by a second normalization. -/
theorem C6_idem_witness :
    (["  3→hello".data, "plain".data].map normLine).map normLine =
      ["  3→hello".data, "plain".data].map normLine :=
  (C6_idem ["  3→hello".data, "plain".data]).mp (by decide)

/-- C7: a recognized tool-invocation line opens a message of kind git if and only if the tool is `Bash` and its argument contains the standalone word `git` (otherwise kind tool), and the `filesModified` statistic counts exactly the distinct non-empty fileNames of messages of kind tool, so a git message's fileName never enters that set. -/
theorem C7_git (line : List Char) (st : PState) (name arg : List Char)
    (hT : toolPatternTest line = true)
    (hM : toolMatch line = some (name, arg)) :
    ((stepLine line st).curMsg = some
      { type := if name = "Bash".data && gitWordTest arg then MType.git else MType.tool,
        content := line,
        toolName := some (if name = "Bash".data && gitWordTest arg then "Git".data else name),
        fileName := if arg = [] then none else some arg,
        isGitAction := some (name = "Bash".data && gitWordTest arg) }) ∧
    ((if name = "Bash".data && gitWordTest arg then MType.git else MType.tool) = MType.git ↔
      (name = "Bash".data ∧ gitWordTest arg = true)) ∧
    (∀ secs : List Section,
      (calculateStatistics secs).filesModified = (specToolFiles secs).length) := by
  refine ⟨?_, ?_, fun secs => calculateStatistics_filesModified secs⟩
  · simp only [stepLine, hT, if_true, hM]
  · cases hg : (decide (name = "Bash".data) && gitWordTest arg) with
    | true =>
      have hg2 := hg
      simp only [Bool.and_eq_true, decide_eq_true_eq] at hg2
      simp [hg, hg2]
    | false =>
      constructor
      · intro h
        simp at h
      · intro ⟨ha, hb⟩
        subst ha
        simp [hb] at hg

/-- Witness for C7: the line invoking Bash on `git status` opens a git message carrying tool name `Git`. -/
theorem C7_git_witness :
    (stepLine ("● Bash(git status)".data) initState).curMsg =
      some { type := MType.git, content := "● Bash(git status)".data,
             toolName := some "Git".data, fileName := some "git status".data,
             isGitAction := some true } :=
  (C7_git ("● Bash(git status)".data) initState ("Bash".data) ("git status".data)
    (by decide) (by decide)).1

/-- C8: the document date is the first substring of the entire raw text matching the `YYYY-MM-DD` token shape, and the supplied today value when no such token occurs. -/
theorem C8_date (content today : List Char) :
    (parse content today).date =
      match specFirstDate content with
      | some d => d
      | none => today := by
  show (match findDate content with | some d => d | none => today) = _
  rw [findDate_eq_spec]

/-- C9: from any state outside a code block, input that ends with an opening fence followed only by code-body lines (an unterminated fence) yields exactly the sections that the remaining input without that tail would yield: the buffered code content is never flushed and no CodeBlock for the unterminated fence appears; a concrete unterminated-fence transcript parses normally with no code blocks. -/
theorem C9_unterminated_fence (st : PState) (L : List Char) (B : List (List Char)) (fuel : Nat)
    (hcb : st.inCodeBlock = false)
    (hT : toolPatternTest ('`' :: '`' :: '`' :: L) = false)
    (hR : ('`' :: '`' :: '`' :: L).contains '⎿' = false)
    (hPf : "```".data.isPrefixOf (trim ('`' :: '`' :: '`' :: L)) = true)
    (hB : ∀ b ∈ B, plainBody b) :
    (finalize (parseRun fuel (('`' :: '`' :: '`' :: L) :: B) st) = finalize st) ∧
    (∀ today : List Char,
      (parse ("● hi\n```js\nfoo".data) today).sections =
        [{ title := "Session Start".data,
           messages := [{ type := MType.assistant, content := "hi".data,
                          toolName := none, fileName := none, isGitAction := none }],
           codeBlocks := [], fileChanges := [] }]) := by
  refine ⟨?_, fun _ => rfl⟩
  cases fuel with
  | zero => rfl
  | succ f =>
    rw [parseRun_cons_step f ('`' :: '`' :: '`' :: L) B st
      (show ['>', ' '].isPrefixOf ('`' :: '`' :: '`' :: L) = false from rfl)]
    rw [stepLine_fence_open ('`' :: '`' :: '`' :: L) st hT rfl rfl hR hPf hcb]
    obtain ⟨cc, hcc⟩ := parseRun_codeBody_ex B f
      { st with inCodeBlock := true,
                codeLang := if (trim ('`' :: '`' :: '`' :: L)).drop 3 = [] then "text".data
                            else (trim ('`' :: '`' :: '`' :: L)).drop 3 }
      hB rfl
    rw [hcc]
    exact finalize_update st true cc _

/-- Witness for C9: an unterminated `python` fence with one body line contributes nothing to the output sections. -/
theorem C9_witness :
    finalize (parseRun 2 ["```python".data, "print(1)".data] initState) =
      finalize initState :=
  (C9_unterminated_fence initState ("python".data) ["print(1)".data] 2 rfl
    (by decide) (by decide) (by decide) (by decide)).1

/-- C10: for every input, `totalMessages` equals the sum of the user, assistant, thinking, tool and git counters, because the parser never produces a message of kind system. -/
theorem C10_partition (content today : List Char) :
    ((parse content today).statistics.totalMessages =
      (parse content today).statistics.userMessages +
      (parse content today).statistics.assistantMessages +
      (parse content today).statistics.thinkingMessages +
      (parse content today).statistics.toolMessages +
      (parse content today).statistics.gitMessages) ∧
    (∀ s ∈ (parse content today).sections, ∀ m ∈ s.messages, m.type ≠ .system) := by
  have hns : ∀ s ∈ parseLines ((splitNL content).map normLine),
      ∀ m ∈ s.messages, m.type ≠ .system := by
    unfold parseLines
    have hinv := parseRun_no_system (((splitNL content).map normLine).length)
      ((splitNL content).map normLine) initState
      (by intro s hs; simp [initState] at hs)
      (by intro m hm; simp [initState, initSection] at hm)
      (by intro m hm; simp [initState] at hm)
    exact finalize_no_system _ hinv.1 hinv.2.1 hinv.2.2
  constructor
  · have hst : (parse content today).statistics =
        calculateStatistics (parseLines ((splitNL content).map normLine)) := rfl
    rw [hst]
    exact calculateStatistics_partition _ hns
  · have hsec : (parse content today).sections =
        parseLines ((splitNL content).map normLine) := rfl
    rw [hsec]
    exact hns

/-- Witness for C10: the counters partition the total on a one-line transcript, and the produced assistant message is not a system message. -/
theorem C10_witness :
    ((parse ("● hi".data) []).statistics.totalMessages =
      (parse ("● hi".data) []).statistics.userMessages +
      (parse ("● hi".data) []).statistics.assistantMessages +
      (parse ("● hi".data) []).statistics.thinkingMessages +
      (parse ("● hi".data) []).statistics.toolMessages +
      (parse ("● hi".data) []).statistics.gitMessages) ∧
    ({ type := MType.assistant, content := "hi".data, toolName := none,
       fileName := none, isGitAction := none } : Message).type ≠ MType.system :=
  ⟨(C10_partition ("● hi".data) []).1,
   (C10_partition ("● hi".data) []).2
     { title := "Session Start".data,
       messages := [{ type := MType.assistant, content := "hi".data,
                      toolName := none, fileName := none, isGitAction := none }],
       codeBlocks := [], fileChanges := [], summary := none }
     (by decide) _ (by decide)⟩

end ConvViewer
